import Mathlib

/-
  Shallow embedding of the MSI barcode encoder (src/sym/msi.rs) and of the
  generic validation contract it instantiates, with theorems settling the
  specification claims about checksum arithmetic, validation, encoding
  layout and purity.

  Machine integers are modelled as Nat with explicit wrapping where the
  source uses u8 arithmetic that could overflow; fallible operations
  (slice indexing that can panic, Option-returning conversions) are
  modelled with Option, where `none` stands for the panic.
-/

namespace MSI

/-- The left-hand guard pattern (constant LEFT_GUARD). -/
def LEFT_GUARD : List Nat := [1, 1, 0]

/-- The right-hand guard pattern (constant RIGHT_GUARD). -/
def RIGHT_GUARD : List Nat := [1, 0, 0, 1]

/-- The digit-to-pattern table (constant ENCODINGS): rows 0-9, 12 modules each. -/
def ENCODINGS : List (List Nat) :=
  [[1, 0, 0, 1, 0, 0, 1, 0, 0, 1, 0, 0],
   [1, 0, 0, 1, 0, 0, 1, 0, 0, 1, 1, 0],
   [1, 0, 0, 1, 0, 0, 1, 1, 0, 1, 0, 0],
   [1, 0, 0, 1, 0, 0, 1, 1, 0, 1, 1, 0],
   [1, 0, 0, 1, 1, 0, 1, 0, 0, 1, 0, 0],
   [1, 0, 0, 1, 1, 0, 1, 0, 0, 1, 1, 0],
   [1, 0, 0, 1, 1, 0, 1, 1, 0, 1, 0, 0],
   [1, 0, 0, 1, 1, 0, 1, 1, 0, 1, 1, 0],
   [1, 1, 0, 1, 0, 0, 1, 0, 0, 1, 0, 0],
   [1, 1, 0, 1, 0, 0, 1, 0, 0, 1, 1, 0]]

/-- The constant MOD_10 of the source (a u8 holding 10). -/
def MOD_10 : Nat := 10

/-- The running sum of encode_mod10: the loop `for i in (0 .. len).rev()`
    adds, at an index i with i % 2 == 0, the digit sum of twice the digit
    (u8 arithmetic, hence the explicit wrap at 256), and otherwise the digit
    itself.  The parity test is on the absolute index i, not on the distance
    from the end. -/
def msiSum (ds : List Nat) : Nat :=
  (List.range ds.length).reverse.foldl
    (fun sum i =>
      if i % 2 = 0 then
        let multi_2 := ds.getD i 0 * 2 % 256
        sum + (multi_2 / MOD_10 + multi_2 % MOD_10)
      else
        sum + ds.getD i 0)
    0

/-- MSI::encode_mod10: ten minus the running sum modulo ten. -/
def encode_mod10 (ds : List Nat) : Nat :=
  MOD_10 - msiSum ds % MOD_10

/-- Checksum rule as the specification words it (section 4.3), kept separate
    for comparison with the source embedding: parity of the 0-based distance
    from the end (rightmost = 0) decides whether a digit is doubled and
    digit-sum folded. -/
def mod10_spec (ds : List Nat) : Nat :=
  10 -
    (ds.reverse.enum.foldl
      (fun sum p =>
        if p.1 % 2 = 0 then sum + (p.2 * 2 / 10 + p.2 * 2 % 10) else sum + p.2)
      0) % 10

/-- The error kinds of the validation contract. -/
inductive BarcodeError where
  | InvalidLength : BarcodeError
  | InvalidCharacter : Char → BarcodeError
deriving DecidableEq

/-- Parse::valid_len for MSI: the range 1..50 (start inclusive, end exclusive). -/
def valid_len : Nat × Nat := (1, 50)

/-- char::from_digit of the standard library, for radices up to 36: some
    digit character when num < radix, none otherwise. -/
def from_digit (num radix : Nat) : Option Char :=
  if num < radix then
    if num < 10 then some (Char.ofNat (48 + num))
    else some (Char.ofNat (97 + (num - 10)))
  else none

/-- Parse::valid_chars for MSI: (0..9).map(|i| char::from_digit(i, 9).unwrap()).
    The unwrap never fails here (every i is below the radix 9), so its panic
    branch is modelled by an arbitrary default never reached. -/
def valid_chars : List Char :=
  (List.range 9).map (fun i => (from_digit i 9).getD (Char.ofNat 0))

/-- Modelled from the spec: the shared parse of the Validation Contract
    (the generic sym module is not among the staged sources) — checks the
    input length against valid_len and every character against valid_chars,
    returns the text unchanged on success, fails with InvalidLength or with
    InvalidCharacter naming the offending character. -/
def parse (s : List Char) : Except BarcodeError (List Char) :=
  if valid_len.1 ≤ s.length ∧ s.length < valid_len.2 then
    match s.find? (fun c => !(valid_chars.contains c)) with
    | some c => Except.error (BarcodeError.InvalidCharacter c)
    | none => Except.ok s
  else
    Except.error BarcodeError.InvalidLength

/-- char::to_digit(10): some value for an ascii digit, none otherwise. -/
def to_digit10 (c : Char) : Option Nat :=
  if 48 ≤ c.toNat ∧ c.toNat ≤ 57 then some (c.toNat - 48) else none

/-- The digit-conversion loop of MSI::new; none models the panic of the
    expect call on an unconvertible character. -/
def digitsOf : List Char → Option (List Nat)
  | [] => some []
  | c :: cs =>
    match to_digit10 c, digitsOf cs with
    | some d, some ds => some (d :: ds)
    | _, _ => none

/-- MSI::new: parse, then convert every validated character to its digit. -/
def new (s : List Char) : Except BarcodeError (Option (List Nat)) :=
  (parse s).map (fun d => digitsOf d)

/-- The payload loop of MSI::encode: one table row per stored digit; none
    models the panic of an out-of-bounds ENCODINGS index. -/
def patternsOf : List Nat → Option (List (List Nat))
  | [] => some []
  | d :: ds =>
    match ENCODINGS.get? d, patternsOf ds with
    | some p, some ps => some (p :: ps)
    | _, _ => none

/-- Modelled from the spec: helpers::join_slices (the helpers module is not
    among the staged sources) — pure concatenation of the given slices in
    argument order, no separators or padding. -/
def join_slices (xs : List (List Nat)) : List Nat :=
  xs.join

/-- MSI::encode: payload patterns in digit order, then the checksum pattern,
    wrapped in the guards; none models the panic of an out-of-bounds table
    index. -/
def encode (ds : List Nat) : Option (List Nat) :=
  match patternsOf ds, ENCODINGS.get? (encode_mod10 ds) with
  | some ps, some cp => some (join_slices [LEFT_GUARD, ps.join, cp, RIGHT_GUARD])
  | _, _ => none

/-- A call of encode_mod10 through a shared reference: the result paired with
    the encoder state after the call (the source method takes the receiver
    immutably and touches no other state). -/
def encode_mod10_call (m : List Nat) : Nat × List Nat :=
  (encode_mod10 m, m)

/-- A call of encode through a shared reference, as encode_mod10_call. -/
def encode_call (m : List Nat) : Option (List Nat) × List Nat :=
  (encode m, m)

/-- The character set actually built by valid_chars: nine characters. -/
lemma valid_chars_eq : valid_chars = ['0', '1', '2', '3', '4', '5', '6', '7', '8'] := by
  decide

/-- A successful parse returns its input unchanged, and every character of
    that input is in the valid character set. -/
lemma parse_ok_mem {s d : List Char} (h : parse s = Except.ok d) :
    d = s ∧ ∀ c ∈ s, valid_chars.contains c = true := by
  unfold parse at h
  split at h
  · rcases hf : s.find? (fun c => !(valid_chars.contains c)) with _ | c <;> rw [hf] at h
    · simp only [] at h
      injection h with h
      subst h
      refine ⟨rfl, fun c hc => ?_⟩
      have h2 := List.find?_eq_none.mp hf c hc
      simpa using h2
    · simp at h
  · simp at h

/-- Every character of the valid character set converts to a digit. -/
lemma to_digit10_valid : ∀ c ∈ valid_chars, (to_digit10 c).isSome = true := by
  decide

/-- Character lists made only of valid characters convert to digit lists. -/
lemma digitsOf_isSome {l : List Char} (h : ∀ c ∈ l, valid_chars.contains c = true) :
    (digitsOf l).isSome = true := by
  induction l with
  | nil => rfl
  | cons c cs ih =>
    have hm : c ∈ valid_chars := by
      have := h c (List.mem_cons_self c cs)
      simpa using this
    have hc : (to_digit10 c).isSome = true := to_digit10_valid c hm
    have hcs : (digitsOf cs).isSome = true :=
      ih (fun x hx => h x (List.mem_cons_of_mem c hx))
    rcases hto : to_digit10 c with _ | d
    · rw [hto] at hc
      simp at hc
    · rcases hds : digitsOf cs with _ | ds
      · rw [hds] at hcs
        simp at hcs
      · simp [digitsOf, hto, hds]

/-- Every pattern the payload loop produces is a row of the encoding table. -/
lemma patternsOf_mem {ds : List Nat} {ps : List (List Nat)} (h : patternsOf ds = some ps) :
    ∀ p ∈ ps, p ∈ ENCODINGS := by
  induction ds generalizing ps with
  | nil =>
    simp [patternsOf] at h
    subst h
    simp
  | cons d rest ih =>
    unfold patternsOf at h
    rcases hg : ENCODINGS.get? d with _ | p0 <;> rw [hg] at h
    · simp at h
    · rcases hr : patternsOf rest with _ | ps0 <;> rw [hr] at h
      · simp at h
      · simp at h
        subst h
        intro p hp
        rcases List.mem_cons.mp hp with rfl | hp2
        · exact List.get?_mem hg
        · exact ih hr p hp2

/-- Every module of every encoding table row, and of both guards, is 0 or 1. -/
lemma encodings_binary : ∀ p ∈ ENCODINGS, ∀ x ∈ p, (x == 0 || x == 1) = true := by
  decide

end MSI

/-- Claim C1: the claim says encode_mod10 keys the double-and-fold step on the
    parity of the 0-based distance from the end (rightmost = 0).  The code keys
    it on the parity of the absolute index from the start (its reversed
    traversal does not change the sum), so on the even-length sequence [0, 1]
    the code yields 9 while the distance-from-end rule of the claim yields 8. -/
theorem msi_mod10_parity_left_anchored :
    MSI.encode_mod10 [0, 1] = 9 ∧ MSI.mod10_spec [0, 1] = 8 := by
  exact ⟨rfl, rfl⟩

/-- Claim C2: for input "01" construction succeeds with digits [0, 1] and the
    output has length 43, but the checksum is 9 (not 8 as claimed) and the
    encoded output carries the pattern of 9, which differs from the pattern
    of 8. -/
theorem msi_encode_01_trace :
    MSI.new ['0', '1'] = Except.ok (some [0, 1]) ∧
    MSI.encode_mod10 [0, 1] = 9 ∧
    MSI.encode [0, 1] =
      some (MSI.LEFT_GUARD ++ MSI.ENCODINGS.getD 0 [] ++ MSI.ENCODINGS.getD 1 [] ++
        MSI.ENCODINGS.getD 9 [] ++ MSI.RIGHT_GUARD) ∧
    MSI.ENCODINGS.getD 9 [] ≠ MSI.ENCODINGS.getD 8 [] ∧
    ((MSI.encode [0, 1]).getD []).length = 43 := by
  refine ⟨rfl, rfl, by decide, by decide, rfl⟩

/-- Claim C3: the claim says the valid character set is exactly the ten digits
    0-9.  valid_chars builds its characters with from_digit over the range
    0..9 at radix 9, so it holds only the nine characters 0-8, and the input
    "9" is rejected with InvalidCharacter. -/
theorem msi_valid_chars_missing_nine :
    MSI.valid_chars = ['0', '1', '2', '3', '4', '5', '6', '7', '8'] ∧
    MSI.valid_chars.contains '9' = false ∧
    MSI.parse ['9'] = Except.error (MSI.BarcodeError.InvalidCharacter '9') := by
  refine ⟨by decide, by decide, rfl⟩

/-- Claim C4: the claim says encode never fails and the checksum pattern
    lookup is always in bounds.  The valid input "00" parses, its checksum is
    10, index 10 is out of bounds for the ten-row table, and encode reaches
    the panic branch (modelled by none). -/
theorem msi_checksum_ten_out_of_bounds :
    MSI.parse ['0', '0'] = Except.ok ['0', '0'] ∧
    MSI.encode_mod10 [0, 0] = 10 ∧
    MSI.ENCODINGS.get? 10 = none ∧
    MSI.encode [0, 0] = none :=
  ⟨rfl, rfl, rfl, rfl⟩

/-- Claim C5: for every stored digit sequence the checksum lies between 1 and
    10, and it is exactly 10 (never 0) whenever the running sum is a multiple
    of 10. -/
theorem msi_mod10_range (ds : List Nat) :
    1 ≤ MSI.encode_mod10 ds ∧ MSI.encode_mod10 ds ≤ 10 ∧
      (MSI.msiSum ds % 10 = 0 → MSI.encode_mod10 ds = 10) := by
  simp only [MSI.encode_mod10, MSI.MOD_10]
  omega

/-- Claim C6: the claim says every valid input of n digits encodes to a
    sequence of length 19 + 12 n.  The valid input "00" (n = 2) constructs
    successfully, yet encode produces no sequence at all: the checksum is 10
    and the table lookup panics (modelled by none) instead of returning 43
    modules. -/
theorem msi_encode_00_no_output :
    MSI.new ['0', '0'] = Except.ok (some [0, 0]) ∧ MSI.encode [0, 0] = none :=
  ⟨rfl, rfl⟩

/-- Claim C7: valid_len is the range 1..50, and parse fails with
    InvalidLength exactly when the input length is outside 1..49; in
    particular the empty input fails with InvalidLength, and no input of
    length 1 to 49 is rejected for its length. -/
theorem msi_parse_length_contract :
    MSI.valid_len = (1, 50) ∧
    ∀ s : List Char,
      (MSI.parse s = Except.error MSI.BarcodeError.InvalidLength ↔
        ¬(1 ≤ s.length ∧ s.length < 50)) := by
  refine ⟨rfl, fun s => ?_⟩
  unfold MSI.parse
  by_cases h : MSI.valid_len.1 ≤ s.length ∧ s.length < MSI.valid_len.2
  · rw [if_pos h]
    have h2 : 1 ≤ s.length ∧ s.length < 50 := h
    constructor
    · intro hc
      rcases hf : s.find? (fun c => !(MSI.valid_chars.contains c)) with _ | c <;>
        rw [hf] at hc <;> simp at hc
    · intro hl
      exact absurd h2 hl
  · rw [if_neg h]
    have h2 : ¬(1 ≤ s.length ∧ s.length < 50) := h
    exact ⟨fun _ => h2, fun _ => rfl⟩

/-- Claim C8: for every input the validation contract accepts, every
    validated character converts to a digit — the panic branch of the
    conversion in the constructor is unreachable. -/
theorem msi_validated_digits_convert (s d : List Char) (h : MSI.parse s = Except.ok d) :
    (MSI.digitsOf d).isSome = true := by
  obtain ⟨rfl, hall⟩ := MSI.parse_ok_mem h
  exact MSI.digitsOf_isSome hall

/-- Witness for claim C8 at the concrete accepted input "01". -/
theorem msi_validated_digits_convert_w : (MSI.digitsOf ['0', '1']).isSome = true :=
  msi_validated_digits_convert ['0', '1'] ['0', '1'] rfl

/-- Claim C9: encode_mod10 and encode are deterministic and side-effect-free:
    a call leaves the stored digit sequence unchanged, and a second call on
    the state left by the first yields the same value. -/
theorem msi_encode_pure (m : List Nat) :
    (MSI.encode_mod10_call m).2 = m ∧ (MSI.encode_call m).2 = m ∧
      (MSI.encode_mod10_call ((MSI.encode_mod10_call m).2)).1 =
        (MSI.encode_mod10_call m).1 ∧
      (MSI.encode_call ((MSI.encode_call m).2)).1 = (MSI.encode_call m).1 :=
  ⟨rfl, rfl, rfl, rfl⟩

/-- Claim C10: whenever encode returns a module sequence, every module is 0
    or 1, because the guards and every encoding table row hold only 0 and 1. -/
theorem msi_encode_modules_binary (ds out : List Nat) (h : MSI.encode ds = some out) :
    out.all (fun x => x == 0 || x == 1) = true := by
  rw [List.all_eq_true]
  intro x hx
  unfold MSI.encode at h
  rcases hps : MSI.patternsOf ds with _ | ps <;> rw [hps] at h
  · simp at h
  · rcases hcp : MSI.ENCODINGS.get? (MSI.encode_mod10 ds) with _ | cp <;> rw [hcp] at h
    · simp at h
    · simp only [MSI.join_slices, List.flatten_cons, List.flatten_nil, List.append_nil,
        Option.some.injEq] at h
      subst h
      simp only [List.mem_append] at hx
      rcases hx with hx | hx | hx | hx
      · have h1 : x = 1 ∨ x = 1 ∨ x = 0 := by simpa [MSI.LEFT_GUARD] using hx
        rcases h1 with rfl | rfl | rfl <;> decide
      · obtain ⟨l, hl, hxl⟩ := List.mem_flatten.mp hx
        exact MSI.encodings_binary l (MSI.patternsOf_mem hps l hl) x hxl
      · exact MSI.encodings_binary cp (List.get?_mem hcp) x hx
      · have h1 : x = 1 ∨ x = 0 ∨ x = 0 ∨ x = 1 := by simpa [MSI.RIGHT_GUARD] using hx
        rcases h1 with rfl | rfl | rfl | rfl <;> decide

/-- Witness for claim C10 at the concrete input [0, 1]. -/
theorem msi_encode_modules_binary_w :
    ((MSI.encode [0, 1]).getD []).all (fun x => x == 0 || x == 1) = true :=
  msi_encode_modules_binary [0, 1] ((MSI.encode [0, 1]).getD []) rfl
